import Mathlib

/-!
Verification of the batched-loading layer and the query-cost analyzer of a
multi-tenant project/task tracking backend.

The development shallowly embeds:
* `core/query_complexity.py` — the `QueryComplexityAnalyzer` tree walk
  (per-field base costs, argument-driven multipliers, depth tracking) and the
  `QueryComplexityValidationRule.enter_document` enforcement step;
* `core/dataloaders.py` — the per-key batch functions of the data loaders
  (grouping loaders and singular loaders) over a list-of-records store, with
  the store's queryset ordering taken from the model `Meta` options
  (`tasks` ordered by descending `created_at`, `task_comments` by ascending
  `created_at`, and the explicit `order_by('created_at')` in the comments
  loader);
* `core/signals.py` — the cache-invalidation signal handlers;
* the batching/memoization discipline of the loader base class, modelled from
  the spec (the class itself comes from the `promise` dependency and is not
  part of the repository sources).

Numeric complexity scores are embedded as rationals (`ℚ`): Python's true
division `min(value, 100) / 10` and the literal `1.2` are exact in `ℚ`.
-/

namespace QueryComplexity

/-- Python values that can appear as a query argument's resolved value or in
the supplied `variables` mapping.  Only the shapes the analyzer inspects are
distinguished: Python `int` (the one case `isinstance(value, int)` accepts)
and non-integer values. -/
inductive PyVal where
  | int (n : Int)
  | str (s : String)
  deriving DecidableEq, Repr

/-- An argument's value node.  `lit v` is a value node carrying a `value`
attribute (integer, string, boolean, enum literals); `variable n` is a
variable reference node carrying a `name`; `other` is any value node with
neither attribute (list/object values). -/
inductive ValueNode where
  | lit (value : PyVal)
  | varRef (name : String)
  | other
  deriving DecidableEq, Repr

/-- An argument node: a name and a value node
(`argument.name.value`, `argument.value`). -/
structure Argument where
  name : String
  value : ValueNode
  deriving DecidableEq, Repr

/-- A selection inside a selection set: a `FieldNode` (name, arguments,
optional nested selection set), a `FragmentSpreadNode`, or an
`InlineFragmentNode`.  For the two fragment node kinds the analyzer only
checks `hasattr(selection, 'selection_set')`, so both are embedded with an
optional selection set. -/
inductive Selection where
  | field (name : String) (arguments : List Argument)
      (selection_set : Option (List Selection))
  | fragment_spread (selection_set : Option (List Selection))
  | inline_fragment (selection_set : Option (List Selection))

/-- The `variables` mapping (Python dict passed to the analyzer). -/
def Variables : Type := List (String × PyVal)

/-- A document definition: embedded as its optional `selection_set`
(`calculate_complexity` only looks at definitions that have one). -/
def Definition : Type := Option (List Selection)

/-- `QueryComplexityAnalyzer._get_field_complexity`'s `complexity_map`. -/
def complexity_map : List (String × ℚ) :=
  [("id", 1), ("name", 1), ("title", 1), ("description", 1), ("status", 1),
   ("email", 1), ("createdAt", 1), ("updatedAt", 1), ("dueDate", 1),
   ("organization", 2), ("project", 2), ("task", 2), ("projects", 5),
   ("tasks", 5), ("comments", 3),
   ("statistics", 10), ("taskCount", 5), ("completedTaskCount", 5),
   ("completionPercentage", 5), ("isOverdue", 3), ("isAssigned", 2),
   ("commentCount", 3),
   ("projectStatistics", 15), ("organizationStatistics", 20),
   ("taskStatusBreakdown", 10)]

/-- `QueryComplexityAnalyzer._get_field_complexity`:
`complexity_map.get(field_name, 2)`. -/
def get_field_complexity (field_name : String) : ℚ :=
  (List.lookup field_name complexity_map).getD 2

/-- `QueryComplexityAnalyzer._get_argument_value`: a value node with a
`value` attribute yields that value; a variable reference present in
`variables` yields the mapped value; otherwise `None`. -/
def get_argument_value (value : ValueNode) (vars : Variables) :
    Option PyVal :=
  match value with
  | .lit v => some v
  | .varRef n => List.lookup n vars
  | .other => none

/-- `QueryComplexityAnalyzer._calculate_argument_multiplier`: the loop over
the field's arguments, rendered as a left fold starting from 1, followed by
`max(multiplier, 1)`.  A pagination argument (`first`/`last`/`limit`) whose
value resolves to an `int` multiplies by `min(value, 100) / 10`; a filter
argument (`filter`/`where`/`organizationSlug`) multiplies by `1.2`; every
other argument leaves the multiplier unchanged. -/
def calculate_argument_multiplier (arguments : List Argument)
    (vars : Variables) : ℚ :=
  let multiplier := arguments.foldl (fun multiplier argument =>
    if argument.name ∈ ["first", "last", "limit"] then
      match get_argument_value argument.value vars with
      | some (.int n) => multiplier * ((min n 100 : Int) / 10 : ℚ)
      | _ => multiplier
    else if argument.name ∈ ["filter", "where", "organizationSlug"] then
      multiplier * (1.2 : ℚ)
    else multiplier) 1
  max multiplier 1

/-- `QueryComplexityAnalyzer._analyze_selection_set` together with the
selection-level work of `_analyze_field`, rendered as one structural
recursion over the selection list (the Python accumulation loop over
`complexity` and `max_depth` becomes a fold; `+` and `max` are associative
and commutative, and the empty list yields `(0, current_depth)` exactly as
the loop's initial state).  A field is analyzed at `current_depth + 1`:
base cost, times the argument multiplier when the argument list is
non-empty, plus the recursive cost of its nested selection set analyzed at
the field's own depth.  Fragment spreads and inline fragments recurse into
their selection set (when they have one) at the spread site's
`current_depth`. -/
def analyze_selection_set (selection_set : List Selection)
    (vars : Variables) (current_depth : Nat) : ℚ × Nat :=
  match selection_set with
  | [] => (0, current_depth)
  | .field name arguments fss :: rest =>
    let base := get_field_complexity name
    let complexity :=
      if arguments.isEmpty then base
      else base * calculate_argument_multiplier arguments vars
    let fieldResult :=
      match fss with
      | none => (complexity, current_depth + 1)
      | some ss =>
        let nested := analyze_selection_set ss vars (current_depth + 1)
        (complexity + nested.1, max (current_depth + 1) nested.2)
    let restResult := analyze_selection_set rest vars current_depth
    (fieldResult.1 + restResult.1, max fieldResult.2 restResult.2)
  | .fragment_spread oss :: rest | .inline_fragment oss :: rest =>
    match oss with
    | none => analyze_selection_set rest vars current_depth
    | some ss =>
      let fragResult := analyze_selection_set ss vars current_depth
      let restResult := analyze_selection_set rest vars current_depth
      (fragResult.1 + restResult.1, max fragResult.2 restResult.2)
termination_by sizeOf selection_set
decreasing_by all_goals simp_wf <;> omega

/-- `QueryComplexityAnalyzer._analyze_field` for a field node at depth
`current_depth` (the caller passes `current_depth + 1` relative to the
enclosing selection set). -/
def analyze_field (name : String) (arguments : List Argument)
    (fss : Option (List Selection)) (vars : Variables)
    (current_depth : Nat) : ℚ × Nat :=
  let complexity :=
    if arguments.isEmpty then get_field_complexity name
    else get_field_complexity name *
      calculate_argument_multiplier arguments vars
  match fss with
  | none => (complexity, current_depth)
  | some ss =>
    let nested := analyze_selection_set ss vars current_depth
    (complexity + nested.1, max current_depth nested.2)

/-- `QueryComplexityAnalyzer.calculate_complexity`: sum the complexity over
every definition that has a selection set (each analyzed from depth 0) and
take the maximum of their depths. -/
def calculate_complexity (definitions : List Definition)
    (vars : Variables) : ℚ × Nat :=
  definitions.foldl (fun acc d =>
    match d with
    | none => acc
    | some ss =>
      let r := analyze_selection_set ss vars 0
      (acc.1 + r.1, max acc.2 r.2)) (0, 0)

/-- The errors `QueryComplexityValidationRule.enter_document` can report,
each carrying the measured value and the configured ceiling that the
corresponding `GraphQLError` message names. -/
inductive GraphQLErrorRep where
  | complexityExceeded (measured : ℚ) (ceiling : ℚ)
  | depthExceeded (measured : Nat) (ceiling : Nat)
  deriving DecidableEq, Repr

/-- The body of `QueryComplexityValidationRule.enter_document`: the `try`
block runs the analysis and reports a complexity error and/or a depth error;
the `except` branch catches any analysis failure, logs it, and reports
nothing.  The analysis outcome is passed explicitly (`Except.error` for a
raised exception). -/
def enter_document_checks (max_complexity : ℚ) (max_depth : Nat)
    (analysis : Except String (ℚ × Nat)) : List GraphQLErrorRep :=
  match analysis with
  | .error _ => []
  | .ok (complexity, depth) =>
    (if complexity > max_complexity then
      [.complexityExceeded complexity max_complexity] else [])
    ++ (if depth > max_depth then
      [.depthExceeded depth max_depth] else [])

/-- `QueryComplexityValidationRule.enter_document` when the analysis
succeeds: it calls `calculate_complexity(node)` without passing the
operation's variables, so the analysis runs with the empty mapping. -/
def enter_document (max_complexity : ℚ) (max_depth : Nat)
    (definitions : List Definition) : List GraphQLErrorRep :=
  enter_document_checks max_complexity max_depth
    (Except.ok (calculate_complexity definitions []))

end QueryComplexity

namespace Dataloaders

/-- A row of the `tasks` table (the fields the loaders inspect: primary key,
`project_id` foreign key, `created_at` timestamp). -/
structure Task where
  id : Nat
  project_id : Nat
  created_at : Nat
  deriving DecidableEq, Repr

/-- A row of the `task_comments` table. -/
structure TaskComment where
  id : Nat
  task_id : Nat
  created_at : Nat
  deriving DecidableEq, Repr

/-- The `tasks` table ordering from `Task.Meta.ordering = ['-created_at']`:
descending `created_at`. -/
def task_desc_created (a b : Task) : Prop :=
  b.created_at ≤ a.created_at

/-- Ascending `created_at`, the order `order_by('created_at')` requests (also
`TaskComment.Meta.ordering = ['created_at']`). -/
def comment_asc_created (a b : TaskComment) : Prop :=
  a.created_at ≤ b.created_at

instance : DecidableRel task_desc_created :=
  fun _ _ => Nat.decLe _ _

instance : DecidableRel comment_asc_created :=
  fun _ _ => Nat.decLe _ _

instance : IsTotal Task task_desc_created :=
  ⟨fun a b => Nat.le_total b.created_at a.created_at⟩

instance : IsTrans Task task_desc_created :=
  ⟨fun _ _ _ hab hbc => Nat.le_trans hbc hab⟩

instance : IsTotal TaskComment comment_asc_created :=
  ⟨fun a b => Nat.le_total a.created_at b.created_at⟩

instance : IsTrans TaskComment comment_asc_created :=
  ⟨fun _ _ _ hab hbc => Nat.le_trans hab hbc⟩

/-- `Task.objects...filter(project_id__in=project_ids)`: the matching rows of
the store, returned in the queryset's order (no explicit `order_by`, so the
default `Meta.ordering = ['-created_at']` applies). -/
def tasks_for_projects (store : List Task) (project_ids : List Nat) :
    List Task :=
  List.insertionSort task_desc_created
    (store.filter (fun t => t.project_id ∈ project_ids))

/-- `Task.objects...filter(id__in=task_ids)` under the default ordering. -/
def tasks_for_ids (store : List Task) (task_ids : List Nat) : List Task :=
  List.insertionSort task_desc_created
    (store.filter (fun t => t.id ∈ task_ids))

/-- `TaskComment.objects...filter(task_id__in=task_ids).order_by('created_at')`. -/
def comments_for_tasks (store : List TaskComment) (task_ids : List Nat) :
    List TaskComment :=
  List.insertionSort comment_asc_created
    (store.filter (fun c => c.task_id ∈ task_ids))

/-- The `defaultdict(list)` grouping loop
`for row in rows: groups[key(row)].append(row)`, as a fold producing the
bucket function; `groups.get(k, [])` is the value at `k`. -/
def group_by_key (key : α → Nat) (rows : List α) : Nat → List α :=
  rows.foldl (fun groups x => fun k =>
    if k = key x then groups k ++ [x] else groups k) (fun _ => [])

/-- The dict comprehension `{key(row): row for row in rows}` (a later row
with the same key overwrites an earlier one), as a fold producing the
lookup function; `d.get(k)` is the value at `k`. -/
def dict_by_key (key : α → Nat) (rows : List α) : Nat → Option α :=
  rows.foldl (fun m x => fun k =>
    if k = key x then some x else m k) (fun _ => none)

/-- `TasksByProjectDataLoader.batch_load_fn`: fetch every task of the
requested projects in one query, group by `project_id`, and return one
bucket per requested key, positionally. -/
def TasksByProjectDataLoader_batch_load_fn (store : List Task)
    (project_ids : List Nat) : List (List Task) :=
  let tasks := tasks_for_projects store project_ids
  let tasks_by_project := group_by_key Task.project_id tasks
  project_ids.map (fun project_id => tasks_by_project project_id)

/-- `CommentsByTaskDataLoader.batch_load_fn`: fetch every comment of the
requested tasks ordered by `created_at`, group by `task_id`, and return one
bucket per requested key, positionally. -/
def CommentsByTaskDataLoader_batch_load_fn (store : List TaskComment)
    (task_ids : List Nat) : List (List TaskComment) :=
  let comments := comments_for_tasks store task_ids
  let comments_by_task := group_by_key TaskComment.task_id comments
  task_ids.map (fun task_id => comments_by_task task_id)

/-- `TaskDataLoader.batch_load_fn`: fetch the requested tasks in one query,
index them by `id`, and return `task_map.get(task_id)` (an explicit absent
value for a missing key) per requested key, positionally. -/
def TaskDataLoader_batch_load_fn (store : List Task)
    (task_ids : List Nat) : List (Option Task) :=
  let tasks := tasks_for_ids store task_ids
  let task_map := dict_by_key Task.id tasks
  task_ids.map (fun task_id => task_map task_id)

end Dataloaders

namespace BatchLoader

/-- Modelled from the spec: the state of one `BatchLoader`
(`promise.dataloader.DataLoader`, a dependency whose code is not part of the
repository sources — `core/dataloaders.py` only subclasses it).  It owns a
completed-key→value cache for the lifetime of the owning request and a queue
of keys accumulated since the last dispatch. -/
structure LoaderState (β : Type) where
  cache : List (Nat × β)
  queue : List Nat

/-- A fresh per-request loader, as `get_dataloaders` creates on first use:
empty cache, empty queue. -/
def fresh {β : Type} : LoaderState β :=
  { cache := [], queue := [] }

/-- First-match lookup in the completed-key cache. -/
def cache_lookup (k : Nat) : List (Nat × β) → Option β
  | [] => none
  | (k', v) :: rest => if k' = k then some v else cache_lookup k rest

/-- Modelled from the spec: `load(key)` registers interest in a key.  A key
already resolved in this request is a cache hit and is not queued again;
otherwise the key joins the pending batch. -/
def load (s : LoaderState β) (k : Nat) : LoaderState β :=
  if (cache_lookup k s.cache).isSome then s
  else { s with queue := s.queue ++ [k] }

/-- Modelled from the spec: the queued keys are deduplicated before dispatch,
keeping the first occurrence of each key. -/
def dedup_keys (ks : List Nat) : List Nat :=
  ks.foldl (fun acc k => if k ∈ acc then acc else acc ++ [k]) []

/-- The outcome of one scheduling turn: the loader's state afterwards, the
list of bulk-fetch invocations the turn performed (each entry is the key
collection passed to the fetcher), and one result slot per `load` call of
the turn, in request order. -/
structure TurnResult (β : Type) where
  state : LoaderState β
  fetch_calls : List (List Nat)
  results : List (Option β)

/-- Modelled from the spec: one scheduling turn of a `BatchLoader`.  All
`load` calls of the turn accumulate first; when the turn drains, the queued
keys are deduplicated and passed in one collection to the bulk fetcher
(no call at all when nothing is queued), whose positionally aligned results
are cached; every requester then reads its key's resolved value from the
cache. -/
def run_turn (fetch : List Nat → List β) (s : LoaderState β)
    (requests : List Nat) : TurnResult β :=
  let s' := requests.foldl load s
  let dkeys := dedup_keys s'.queue
  let calls := if dkeys.isEmpty then [] else [dkeys]
  let fetched := if dkeys.isEmpty then [] else fetch dkeys
  let cache' := s'.cache ++ dkeys.zip fetched
  { state := { cache := cache', queue := [] }
    fetch_calls := calls
    results := requests.map (fun k => cache_lookup k cache') }

end BatchLoader

namespace Signals

/-- The fields of the domain records that the signal handlers traverse. -/
structure Organization where
  slug : String

/-- A project with its owning organization (`instance.organization`). -/
structure Project where
  id : Nat
  organization : Organization

/-- A task with its owning project (`instance.project`). -/
structure Task where
  project : Project

/-- A comment with its owning task (`instance.task`). -/
structure TaskComment where
  task : Task

/-- The statistics cache, keyed by strings. -/
def Cache (V : Type) : Type := String → Option V

/-- `cache.delete(key)`. -/
def cache_delete (c : Cache V) (key : String) : Cache V :=
  fun k => if k = key then none else c k

/-- Modelled from the spec: the project statistics cache key, a pure
derivation from the project id and the tenant slug.  (The statistics cache
helpers are imported by `core/signals.py` from `core.utils` but their
definitions are absent from the sources; the spec gives the key derivation
contract.) -/
def project_statistics_cache_key (project_id : Nat)
    (organization_slug : String) : String :=
  "project_stats_" ++ toString project_id ++ "_" ++ organization_slug

/-- Modelled from the spec: the organization statistics cache key. -/
def organization_statistics_cache_key (organization_slug : String) : String :=
  "org_stats_" ++ organization_slug

/-- Modelled from the spec: `invalidate_project_statistics_cache` deletes the
project's statistics key. -/
def invalidate_project_statistics_cache (c : Cache V) (project_id : Nat)
    (organization_slug : String) : Cache V :=
  cache_delete c (project_statistics_cache_key project_id organization_slug)

/-- Modelled from the spec: `invalidate_organization_statistics_cache`
deletes the organization's statistics key. -/
def invalidate_organization_statistics_cache (c : Cache V)
    (organization_slug : String) : Cache V :=
  cache_delete c (organization_statistics_cache_key organization_slug)

/-- `invalidate_cache_on_task_change` (receiver of `post_save` and
`post_delete` for `Task`): invalidate the project statistics key, then the
organization statistics key. -/
def invalidate_cache_on_task_change (c : Cache V) (task : Task) : Cache V :=
  let project := task.project
  let organization_slug := project.organization.slug
  let c := invalidate_project_statistics_cache c project.id organization_slug
  invalidate_organization_statistics_cache c organization_slug

/-- `invalidate_cache_on_comment_change` (receiver of `post_save` and
`post_delete` for `TaskComment`): invalidate only the project statistics
key of the comment's task's project. -/
def invalidate_cache_on_comment_change (c : Cache V)
    (comment : TaskComment) : Cache V :=
  let task := comment.task
  let project := task.project
  let organization_slug := project.organization.slug
  invalidate_project_statistics_cache c project.id organization_slug

end Signals

namespace QueryComplexity

/-- The factor a single argument contributes to the field's multiplier (the
spec's per-argument rule): `min(value, 100) / 10` for a pagination argument
resolving to an integer, `1.2` for a filter argument, and `1` otherwise
(including a pagination argument whose value does not resolve to an
integer).  Used to state that `_calculate_argument_multiplier` composes
factors multiplicatively with floor 1. -/
def arg_factor (vars : Variables) (argument : Argument) : ℚ :=
  if argument.name ∈ ["first", "last", "limit"] then
    match get_argument_value argument.value vars with
    | some (.int n) => ((min n 100 : Int) / 10 : ℚ)
    | _ => 1
  else if argument.name ∈ ["filter", "where", "organizationSlug"] then
    (1.2 : ℚ)
  else 1

/-- An argument that is pagination-style and whose value is a variable
reference. -/
def is_variable_pagination_argument (argument : Argument) : Bool :=
  decide (argument.name ∈ ["first", "last", "limit"]) &&
    (match argument.value with
     | .varRef _ => true
     | _ => false)

/-- Remove every variable-valued pagination argument from every field of a
selection tree (used to state that such arguments cannot change the
complexity the validation path measures). -/
def strip_variable_pagination_arguments (selection_set : List Selection) :
    List Selection :=
  match selection_set with
  | [] => []
  | .field name arguments fss :: rest =>
    let fss' :=
      match fss with
      | none => none
      | some ss => some (strip_variable_pagination_arguments ss)
    .field name (arguments.filter (fun a => !is_variable_pagination_argument a))
        fss'
      :: strip_variable_pagination_arguments rest
  | .fragment_spread oss :: rest =>
    let oss' :=
      match oss with
      | none => none
      | some ss => some (strip_variable_pagination_arguments ss)
    .fragment_spread oss' :: strip_variable_pagination_arguments rest
  | .inline_fragment oss :: rest =>
    let oss' :=
      match oss with
      | none => none
      | some ss => some (strip_variable_pagination_arguments ss)
    .inline_fragment oss' :: strip_variable_pagination_arguments rest
termination_by sizeOf selection_set
decreasing_by all_goals simp_wf <;> omega

/-- `strip_variable_pagination_arguments` lifted to a whole document. -/
def strip_document (definitions : List Definition) : List Definition :=
  definitions.map (Option.map strip_variable_pagination_arguments)

end QueryComplexity

namespace QueryComplexity

lemma calculate_argument_multiplier_foldl (arguments : List Argument)
    (vars : Variables) (m : ℚ) :
    arguments.foldl (fun multiplier argument =>
      if argument.name ∈ ["first", "last", "limit"] then
        match get_argument_value argument.value vars with
        | some (.int n) => multiplier * ((min n 100 : Int) / 10 : ℚ)
        | _ => multiplier
      else if argument.name ∈ ["filter", "where", "organizationSlug"] then
        multiplier * (1.2 : ℚ)
      else multiplier) m
      = m * (arguments.map (arg_factor vars)).prod := by
  induction arguments generalizing m with
  | nil => simp
  | cons a rest ih =>
    simp only [List.foldl_cons, List.map_cons, List.prod_cons, ih]
    unfold arg_factor
    by_cases h1 : a.name ∈ ["first", "last", "limit"]
    · simp only [h1, if_true]
      cases hv : get_argument_value a.value vars with
      | none => simp [mul_assoc]
      | some v =>
        cases v with
        | int n => simp [mul_assoc]
        | str s => simp [mul_assoc]
    · by_cases h2 : a.name ∈ ["filter", "where", "organizationSlug"] <;>
        simp [h1, h2, mul_assoc]

lemma calculate_argument_multiplier_eq_prod (arguments : List Argument)
    (vars : Variables) :
    calculate_argument_multiplier arguments vars
      = max ((arguments.map (arg_factor vars)).prod) 1 := by
  unfold calculate_argument_multiplier
  rw [calculate_argument_multiplier_foldl]
  simp

end QueryComplexity

namespace QueryComplexity

lemma analyze_selection_set_shift_aux :
    ∀ (n : Nat) (sels : List Selection) (vars : Variables) (d : Nat),
      sizeOf sels ≤ n →
      analyze_selection_set sels vars d
        = ((analyze_selection_set sels vars 0).1,
           d + (analyze_selection_set sels vars 0).2) := by
  intro n
  induction n with
  | zero =>
    intro sels vars d h
    exfalso
    cases sels <;> simp at h
  | succ n ih =>
    intro sels vars d h
    match sels with
    | [] => simp [analyze_selection_set]
    | .field name arguments fss :: rest =>
      have hrest : sizeOf rest ≤ n := by
        simp at h
        omega
      match fss with
      | none =>
        simp only [analyze_selection_set]
        rw [ih rest vars d hrest, ih rest vars 0 (by simpa using hrest)]
        simp only [Prod.mk.injEq]
        constructor
        · trivial
        · omega
      | some ss =>
        have hss : sizeOf ss ≤ n := by
          simp at h
          omega
        simp only [analyze_selection_set]
        rw [ih ss vars (d + 1) hss, ih ss vars (0 + 1) hss,
          ih rest vars d hrest, ih rest vars 0 (by simpa using hrest)]
        simp only [Prod.mk.injEq]
        constructor
        · trivial
        · omega
    | .fragment_spread oss :: rest =>
      have hrest : sizeOf rest ≤ n := by
        simp at h
        omega
      match oss with
      | none =>
        simp only [analyze_selection_set]
        exact ih rest vars d hrest
      | some ss =>
        have hss : sizeOf ss ≤ n := by
          simp at h
          omega
        simp only [analyze_selection_set]
        rw [ih ss vars d hss, ih rest vars d hrest,
          ih ss vars 0 (by simpa using hss), ih rest vars 0 (by simpa using hrest)]
        simp only [Prod.mk.injEq]
        constructor
        · trivial
        · omega
    | .inline_fragment oss :: rest =>
      have hrest : sizeOf rest ≤ n := by
        simp at h
        omega
      match oss with
      | none =>
        simp only [analyze_selection_set]
        exact ih rest vars d hrest
      | some ss =>
        have hss : sizeOf ss ≤ n := by
          simp at h
          omega
        simp only [analyze_selection_set]
        rw [ih ss vars d hss, ih rest vars d hrest,
          ih ss vars 0 (by simpa using hss), ih rest vars 0 (by simpa using hrest)]
        simp only [Prod.mk.injEq]
        constructor
        · trivial
        · omega

lemma analyze_selection_set_shift (sels : List Selection) (vars : Variables)
    (d : Nat) :
    analyze_selection_set sels vars d
      = ((analyze_selection_set sels vars 0).1,
         d + (analyze_selection_set sels vars 0).2) :=
  analyze_selection_set_shift_aux (sizeOf sels) sels vars d (Nat.le_refl _)

lemma analyze_selection_set_depth_le (sels : List Selection)
    (vars : Variables) (d : Nat) :
    d ≤ (analyze_selection_set sels vars d).2 := by
  rw [analyze_selection_set_shift]
  omega

end QueryComplexity

namespace QueryComplexity

lemma calculate_argument_multiplier_nil (vars : Variables) :
    calculate_argument_multiplier [] vars = 1 := by
  rw [calculate_argument_multiplier_eq_prod]
  simp

/-- C5: each pagination-style argument resolving to an integer `n`
contributes the factor `min(n, 100) / 10`, each filter-style argument the
factor `1.2`, the factors compose multiplicatively across the field's
arguments, the result is bounded below by 1, and a field with `limit: 1000`
gets multiplier `10`, i.e. ten times its base cost. -/
theorem argument_multiplier_spec :
    (∀ (arguments : List Argument) (vars : Variables),
      calculate_argument_multiplier arguments vars
        = max ((arguments.map (arg_factor vars)).prod) 1)
    ∧ (∀ (arguments : List Argument) (vars : Variables),
      1 ≤ calculate_argument_multiplier arguments vars)
    ∧ calculate_argument_multiplier [⟨"limit", .lit (.int 1000)⟩] [] = 10
    ∧ (∀ (name : String) (vars : Variables) (d : Nat),
      analyze_field name [⟨"limit", .lit (.int 1000)⟩] none vars d
        = (10 * get_field_complexity name, d)) := by
  have hlim : ∀ vars : Variables,
      calculate_argument_multiplier [⟨"limit", .lit (.int 1000)⟩] vars = 10 := by
    intro vars
    rw [calculate_argument_multiplier_eq_prod]
    norm_num [arg_factor, get_argument_value]
  refine ⟨calculate_argument_multiplier_eq_prod, ?_, hlim [], ?_⟩
  · intro arguments vars
    rw [calculate_argument_multiplier_eq_prod]
    exact le_max_right _ _
  · intro name vars d
    simp [analyze_field, hlim vars, mul_comm]

/-- C7: when complexity analysis itself raises (the `except` branch of
`enter_document`), no validation error is reported for the document, so the
query proceeds to execution — cost enforcement fails open. -/
theorem analysis_failure_fails_open :
    ∀ (max_complexity : ℚ) (max_depth : Nat) (e : String),
      enter_document_checks max_complexity max_depth (Except.error e) = [] := by
  intro _ _ _
  rfl

/-- C3: a document whose measured complexity is at most the ceiling passes
the complexity check and one over it fails; the depth check against its
ceiling is independent; both violations are reported together when both
occur; each reported error carries the measured value and the ceiling. -/
theorem enter_document_threshold_spec :
    ∀ (max_complexity : ℚ) (max_depth : Nat) (defs : List Definition),
      (enter_document max_complexity max_depth defs
        = (if max_complexity < (calculate_complexity defs []).1 then
            [.complexityExceeded (calculate_complexity defs []).1 max_complexity]
          else [])
          ++ (if max_depth < (calculate_complexity defs []).2 then
            [.depthExceeded (calculate_complexity defs []).2 max_depth]
          else []))
      ∧ (GraphQLErrorRep.complexityExceeded (calculate_complexity defs []).1
            max_complexity
          ∈ enter_document max_complexity max_depth defs
          ↔ max_complexity < (calculate_complexity defs []).1)
      ∧ (GraphQLErrorRep.depthExceeded (calculate_complexity defs []).2
            max_depth
          ∈ enter_document max_complexity max_depth defs
          ↔ max_depth < (calculate_complexity defs []).2)
      ∧ (enter_document max_complexity max_depth defs = []
          ↔ ((calculate_complexity defs []).1 ≤ max_complexity
              ∧ (calculate_complexity defs []).2 ≤ max_depth)) := by
  intro maxC maxD defs
  unfold enter_document enter_document_checks
  rcases calculate_complexity defs [] with ⟨c, d⟩
  refine ⟨rfl, ?_, ?_, ?_⟩
  · by_cases h1 : c > maxC <;> by_cases h2 : d > maxD <;>
      simp [h1, h2]
  · by_cases h1 : c > maxC <;> by_cases h2 : d > maxD <;>
      simp [h1, h2]
  · constructor
    · intro h
      constructor
      · by_contra hc
        simp only [not_le] at hc
        simp [hc] at h
      · by_contra hd
        simp only [not_le] at hd
        simp [hd] at h
    · rintro ⟨hc, hd⟩
      simp [not_lt.mpr hc, not_lt.mpr hd]

end QueryComplexity

namespace QueryComplexity

/-- C4: a field contributes its base cost times its argument multiplier plus
the recursively computed cost of its nested selection; selection-set totals
accumulate per field with the field analyzed one level deeper than its
enclosing set; moving the whole analysis one level deeper adds exactly one
depth unit and leaves complexity unchanged; a single scalar field query has
complexity equal to its base cost and depth 1; one field costing 5 over two
children costing 1 each yields complexity 7 and depth 2. -/
theorem field_cost_and_depth_spec :
    (∀ (name : String) (arguments : List Argument)
        (fss : Option (List Selection)) (vars : Variables) (d : Nat),
      analyze_field name arguments fss vars d
        = (get_field_complexity name * calculate_argument_multiplier arguments vars
            + (analyze_selection_set (fss.getD []) vars d).1,
           max d (analyze_selection_set (fss.getD []) vars d).2))
    ∧ (∀ (name : String) (arguments : List Argument)
        (fss : Option (List Selection)) (rest : List Selection)
        (vars : Variables) (d : Nat),
      analyze_selection_set (.field name arguments fss :: rest) vars d
        = ((analyze_field name arguments fss vars (d + 1)).1
            + (analyze_selection_set rest vars d).1,
           max (analyze_field name arguments fss vars (d + 1)).2
             (analyze_selection_set rest vars d).2))
    ∧ (∀ (sels : List Selection) (vars : Variables) (d : Nat),
      analyze_selection_set sels vars (d + 1)
        = ((analyze_selection_set sels vars d).1,
           (analyze_selection_set sels vars d).2 + 1))
    ∧ (∀ (sels : List Selection) (vars : Variables) (d : Nat),
      (analyze_selection_set sels vars d).1
        = (sels.map (fun s => (analyze_selection_set [s] vars d).1)).sum)
    ∧ (∀ (defs : List Definition) (vars : Variables),
      (calculate_complexity defs vars).1
        = (defs.map (fun dd =>
            (analyze_selection_set (dd.getD []) vars 0).1)).sum)
    ∧ calculate_complexity [some [.field "id" [] none]] [] = (1, 1)
    ∧ calculate_complexity
        [some [.field "taskCount" []
          (some [.field "id" [] none, .field "name" [] none])]] [] = (7, 2) := by
  have hcons1 : ∀ (s : Selection) (rest : List Selection) (vars : Variables)
      (d : Nat),
      (analyze_selection_set (s :: rest) vars d).1
        = (analyze_selection_set [s] vars d).1
          + (analyze_selection_set rest vars d).1 := by
    intro s rest vars d
    cases s with
    | field name args fss => cases fss <;> simp [analyze_selection_set]
    | fragment_spread oss => cases oss <;> simp [analyze_selection_set]
    | inline_fragment oss => cases oss <;> simp [analyze_selection_set]
  have hsum : ∀ (sels : List Selection) (vars : Variables) (d : Nat),
      (analyze_selection_set sels vars d).1
        = (sels.map (fun s => (analyze_selection_set [s] vars d).1)).sum := by
    intro sels vars d
    induction sels with
    | nil => simp [analyze_selection_set]
    | cons s rest ih => rw [hcons1, ih]; simp
  have hdocsum : ∀ (defs : List Definition) (vars : Variables),
      (calculate_complexity defs vars).1
        = (defs.map (fun dd =>
            (analyze_selection_set (dd.getD []) vars 0).1)).sum := by
    intro defs vars
    unfold calculate_complexity
    suffices haux : ∀ (ds : List Definition) (acc : ℚ × Nat),
        (ds.foldl (fun acc d =>
          match d with
          | none => acc
          | some ss =>
            let r := analyze_selection_set ss vars 0
            (acc.1 + r.1, max acc.2 r.2)) acc).1
          = acc.1 + (ds.map (fun dd =>
              (analyze_selection_set (dd.getD []) vars 0).1)).sum by
      rw [haux]
      simp
    intro ds
    induction ds with
    | nil => intro acc; simp
    | cons dd rest ihds =>
      intro acc
      cases dd with
      | none =>
        simp only [List.foldl_cons, List.map_cons, List.sum_cons]
        rw [ihds]
        simp [analyze_selection_set]
      | some ss =>
        simp only [List.foldl_cons, List.map_cons, List.sum_cons]
        rw [ihds]
        simp [Option.getD]
        ring
  refine ⟨?_, ?_, ?_, hsum, hdocsum, ?_, ?_⟩
  · intro name arguments fss vars d
    unfold analyze_field
    cases fss with
    | none =>
      cases harg : arguments with
      | nil =>
        simp [analyze_selection_set, calculate_argument_multiplier_nil]
      | cons a rest =>
        simp [analyze_selection_set]
    | some ss =>
      cases harg : arguments with
      | nil =>
        simp [calculate_argument_multiplier_nil]
      | cons a rest =>
        simp
  · intro name arguments fss rest vars d
    cases fss <;> simp [analyze_selection_set, analyze_field]
  · intro sels vars d
    rw [analyze_selection_set_shift sels vars (d + 1),
      analyze_selection_set_shift sels vars d]
    simp only [Prod.mk.injEq]
    exact ⟨trivial, by omega⟩
  · simp only [calculate_complexity, List.foldl]
    simp only [analyze_selection_set]
    simp [get_field_complexity, complexity_map, List.lookup]
  · simp only [calculate_complexity, List.foldl]
    simp only [analyze_selection_set]
    simp [get_field_complexity, complexity_map, List.lookup]
    norm_num

/-- C6: a fragment spread or inline fragment carrying a selection set adds
that selection's complexity to the enclosing selection set's total and
measures its fields at the spread site's own depth; a selection set
consisting only of the fragment analyzes exactly like the fragment's
selection set — fragments never add a depth level of their own. -/
theorem fragment_same_depth_spec :
    (∀ (ss rest : List Selection) (vars : Variables) (d : Nat),
      analyze_selection_set (.fragment_spread (some ss) :: rest) vars d
        = ((analyze_selection_set ss vars d).1
            + (analyze_selection_set rest vars d).1,
           max (analyze_selection_set ss vars d).2
             (analyze_selection_set rest vars d).2))
    ∧ (∀ (ss rest : List Selection) (vars : Variables) (d : Nat),
      analyze_selection_set (.inline_fragment (some ss) :: rest) vars d
        = ((analyze_selection_set ss vars d).1
            + (analyze_selection_set rest vars d).1,
           max (analyze_selection_set ss vars d).2
             (analyze_selection_set rest vars d).2))
    ∧ (∀ (ss : List Selection) (vars : Variables) (d : Nat),
      analyze_selection_set [.fragment_spread (some ss)] vars d
        = analyze_selection_set ss vars d)
    ∧ (∀ (ss : List Selection) (vars : Variables) (d : Nat),
      analyze_selection_set [.inline_fragment (some ss)] vars d
        = analyze_selection_set ss vars d) := by
  have hsing : ∀ (ss : List Selection) (vars : Variables) (d : Nat),
      ((analyze_selection_set ss vars d).1 + 0,
        max (analyze_selection_set ss vars d).2 d)
        = analyze_selection_set ss vars d := by
    intro ss vars d
    have hd := analyze_selection_set_depth_le ss vars d
    simp [Nat.max_eq_left hd]
  refine ⟨?_, ?_, ?_, ?_⟩
  · intro ss rest vars d
    simp [analyze_selection_set]
  · intro ss rest vars d
    simp [analyze_selection_set]
  · intro ss vars d
    rw [show ([Selection.fragment_spread (some ss)])
        = (Selection.fragment_spread (some ss) :: ([] : List Selection)) from rfl]
    simp only [analyze_selection_set]
    exact hsing ss vars d
  · intro ss vars d
    rw [show ([Selection.inline_fragment (some ss)])
        = (Selection.inline_fragment (some ss) :: ([] : List Selection)) from rfl]
    simp only [analyze_selection_set]
    exact hsing ss vars d

end QueryComplexity

namespace QueryComplexity

lemma variable_pagination_arg_factor_one (a : Argument)
    (h : is_variable_pagination_argument a = true) :
    arg_factor [] a = 1 := by
  unfold is_variable_pagination_argument at h
  rw [Bool.and_eq_true] at h
  obtain ⟨h1, h2⟩ := h
  obtain ⟨v, hv⟩ : ∃ v, a.value = .varRef v := by
    cases hval : a.value <;> simp [hval] at h2 ⊢
  unfold arg_factor
  simp [of_decide_eq_true h1, hv, get_argument_value, List.lookup]

lemma filtered_factor_prod (args : List Argument) :
    ((args.filter (fun a => !is_variable_pagination_argument a)).map
        (arg_factor [])).prod
      = (args.map (arg_factor [])).prod := by
  induction args with
  | nil => rfl
  | cons a rest ih =>
    by_cases h : is_variable_pagination_argument a
    · simp [List.filter_cons, h, variable_pagination_arg_factor_one a h, ih]
    · simp only [Bool.not_eq_true] at h
      simp [List.filter_cons, h, ih]

lemma strip_multiplier_eq (args : List Argument) :
    calculate_argument_multiplier
        (args.filter (fun a => !is_variable_pagination_argument a)) []
      = calculate_argument_multiplier args [] := by
  rw [calculate_argument_multiplier_eq_prod,
    calculate_argument_multiplier_eq_prod, filtered_factor_prod]

lemma strip_complexity_term (name : String) (args : List Argument) :
    (if (args.filter (fun a => !is_variable_pagination_argument a)).isEmpty
        then get_field_complexity name
        else get_field_complexity name *
          calculate_argument_multiplier
            (args.filter (fun a => !is_variable_pagination_argument a)) [])
      = (if args.isEmpty then get_field_complexity name
        else get_field_complexity name *
          calculate_argument_multiplier args []) := by
  by_cases hf : (args.filter (fun a => !is_variable_pagination_argument a)).isEmpty
  · by_cases ha : args.isEmpty
    · simp [hf, ha]
    · have hone : calculate_argument_multiplier args [] = 1 := by
        rw [calculate_argument_multiplier_eq_prod, ← filtered_factor_prod]
        rw [List.isEmpty_iff.mp hf]
        simp
      simp [hf, ha, hone]
  · by_cases ha : args.isEmpty
    · exfalso
      rw [List.isEmpty_iff.mp ha] at hf
      simp at hf
    · simp [hf, ha, strip_multiplier_eq]

lemma analyze_strip_aux :
    ∀ (n : Nat) (sels : List Selection) (d : Nat),
      sizeOf sels ≤ n →
      analyze_selection_set (strip_variable_pagination_arguments sels) [] d
        = analyze_selection_set sels [] d := by
  intro n
  induction n with
  | zero =>
    intro sels d h
    exfalso
    cases sels <;> simp at h
  | succ n ih =>
    intro sels d h
    match sels with
    | [] => simp only [strip_variable_pagination_arguments]
    | .field name arguments fss :: rest =>
      have hrest : sizeOf rest ≤ n := by
        simp at h
        omega
      match fss with
      | none =>
        simp only [strip_variable_pagination_arguments, analyze_selection_set]
        rw [ih rest d hrest, strip_complexity_term]
      | some ss =>
        have hss : sizeOf ss ≤ n := by
          simp at h
          omega
        simp only [strip_variable_pagination_arguments, analyze_selection_set]
        rw [ih rest d hrest, ih ss (d + 1) hss, strip_complexity_term]
    | .fragment_spread oss :: rest =>
      have hrest : sizeOf rest ≤ n := by
        simp at h
        omega
      match oss with
      | none =>
        simp only [strip_variable_pagination_arguments, analyze_selection_set]
        exact ih rest d hrest
      | some ss =>
        have hss : sizeOf ss ≤ n := by
          simp at h
          omega
        simp only [strip_variable_pagination_arguments, analyze_selection_set]
        rw [ih rest d hrest, ih ss d hss]
    | .inline_fragment oss :: rest =>
      have hrest : sizeOf rest ≤ n := by
        simp at h
        omega
      match oss with
      | none =>
        simp only [strip_variable_pagination_arguments, analyze_selection_set]
        exact ih rest d hrest
      | some ss =>
        have hss : sizeOf ss ≤ n := by
          simp at h
          omega
        simp only [strip_variable_pagination_arguments, analyze_selection_set]
        rw [ih rest d hrest, ih ss d hss]

lemma analyze_strip (sels : List Selection) (d : Nat) :
    analyze_selection_set (strip_variable_pagination_arguments sels) [] d
      = analyze_selection_set sels [] d :=
  analyze_strip_aux (sizeOf sels) sels d (Nat.le_refl _)

lemma calculate_complexity_strip (defs : List Definition) :
    calculate_complexity (strip_document defs) []
      = calculate_complexity defs [] := by
  unfold calculate_complexity strip_document
  suffices haux : ∀ (ds : List Definition) (acc : ℚ × Nat),
      (ds.map (Option.map strip_variable_pagination_arguments)).foldl
        (fun acc d =>
          match d with
          | none => acc
          | some ss =>
            let r := analyze_selection_set ss [] 0
            (acc.1 + r.1, max acc.2 r.2)) acc
        = ds.foldl (fun acc d =>
          match d with
          | none => acc
          | some ss =>
            let r := analyze_selection_set ss [] 0
            (acc.1 + r.1, max acc.2 r.2)) acc by
    exact haux defs (0, 0)
  intro ds
  induction ds with
  | nil => intro acc; rfl
  | cons d rest ihds =>
    intro acc
    cases d with
    | none => simpa using ihds acc
    | some ss =>
      simp only [List.map_cons, List.foldl_cons, Option.map]
      rw [analyze_strip ss 0]
      exact ihds _

lemma pagination_non_int_skip (name : String) (value : ValueNode)
    (rest : List Argument) (vars : Variables)
    (h1 : name ∈ ["first", "last", "limit"])
    (h2 : ∀ n : Int, get_argument_value value vars ≠ some (.int n)) :
    calculate_argument_multiplier (⟨name, value⟩ :: rest) vars
      = calculate_argument_multiplier rest vars := by
  rw [calculate_argument_multiplier_eq_prod,
    calculate_argument_multiplier_eq_prod]
  have hf : arg_factor vars ⟨name, value⟩ = 1 := by
    unfold arg_factor
    cases hv : get_argument_value value vars with
    | none => simp [h1, hv]
    | some pv =>
      cases pv with
      | int n => exact absurd hv (h2 n)
      | str s => simp [h1, hv]
  simp [hf]

/-- C10: a pagination-style argument whose value does not resolve to an
integer — a non-integer resolved value, or a variable reference absent from
the variables mapping — contributes factor 1 and is silently skipped; and
the validation path analyzes every document with the empty variables
mapping, under which removing every variable-valued pagination argument
changes neither the measured complexity nor the validation outcome. -/
theorem variable_pagination_argument_spec :
    (∀ (name : String) (value : ValueNode) (rest : List Argument)
        (vars : Variables),
      name ∈ ["first", "last", "limit"] →
      (∀ n : Int, get_argument_value value vars ≠ some (.int n)) →
      calculate_argument_multiplier (⟨name, value⟩ :: rest) vars
        = calculate_argument_multiplier rest vars)
    ∧ (∀ (name v : String) (rest : List Argument),
      name ∈ ["first", "last", "limit"] →
      calculate_argument_multiplier (⟨name, .varRef v⟩ :: rest) []
        = calculate_argument_multiplier rest [])
    ∧ (∀ (max_complexity : ℚ) (max_depth : Nat) (defs : List Definition),
      enter_document max_complexity max_depth (strip_document defs)
        = enter_document max_complexity max_depth defs) := by
  refine ⟨pagination_non_int_skip, ?_, ?_⟩
  · intro name v rest h1
    exact pagination_non_int_skip name (.varRef v) rest [] h1
      (by simp [get_argument_value, List.lookup])
  · intro maxC maxD defs
    unfold enter_document
    rw [calculate_complexity_strip]

/-- Witness for C10 at concrete inputs: `first` is a pagination argument
name, and a `first: $n` argument under the validation path's empty variables
mapping leaves the multiplier untouched. -/
theorem variable_pagination_argument_spec_witness :
    ("first" ∈ (["first", "last", "limit"] : List String))
    ∧ calculate_argument_multiplier [⟨"first", .varRef "n"⟩] []
        = calculate_argument_multiplier [] [] :=
  ⟨by simp,
    variable_pagination_argument_spec.2.1 "first" "n" [] (by simp)⟩

end QueryComplexity

namespace Dataloaders

lemma group_by_key_foldl (key : α → Nat) (rows : List α)
    (groups : Nat → List α) (k : Nat) :
    (rows.foldl (fun groups x => fun k =>
      if k = key x then groups k ++ [x] else groups k) groups) k
      = groups k ++ rows.filter (fun x => key x = k) := by
  induction rows generalizing groups with
  | nil => simp
  | cons x rest ih =>
    simp only [List.foldl_cons, List.filter_cons]
    rw [ih]
    by_cases h : key x = k
    · rw [if_pos h.symm]
      simp [h, List.append_assoc]
    · rw [if_neg (fun hh => h hh.symm)]
      simp [h]

lemma group_by_key_eq_filter (key : α → Nat) (rows : List α) (k : Nat) :
    group_by_key key rows k = rows.filter (fun x => key x = k) := by
  unfold group_by_key
  rw [group_by_key_foldl]
  simp

lemma dict_by_key_foldl_some (key : α → Nat) (rows : List α)
    (m : Nat → Option α) (k : Nat) (x : α) :
    (rows.foldl (fun m x => fun k =>
      if k = key x then some x else m k) m) k = some x →
    (key x = k ∧ x ∈ rows) ∨ m k = some x := by
  induction rows generalizing m with
  | nil => exact fun h => Or.inr h
  | cons y rest ih =>
    intro h
    rcases ih _ h with hmem | hbase
    · exact Or.inl ⟨hmem.1, List.mem_cons_of_mem _ hmem.2⟩
    · simp only [] at hbase
      by_cases hk : k = key y
      · rw [if_pos hk] at hbase
        cases hbase
        exact Or.inl ⟨hk.symm, List.mem_cons_self _ _⟩
      · rw [if_neg hk] at hbase
        exact Or.inr hbase

lemma dict_by_key_foldl_none (key : α → Nat) (rows : List α)
    (m : Nat → Option α) (k : Nat) :
    (rows.foldl (fun m x => fun k =>
      if k = key x then some x else m k) m) k = none
      ↔ (∀ x ∈ rows, key x ≠ k) ∧ m k = none := by
  induction rows generalizing m with
  | nil => simp
  | cons y rest ih =>
    simp only [List.foldl_cons, ih, List.mem_cons]
    constructor
    · rintro ⟨hall, hstep⟩
      by_cases hk : k = key y
      · rw [if_pos hk] at hstep
        cases hstep
      · rw [if_neg hk] at hstep
        refine ⟨?_, hstep⟩
        rintro x (rfl | hx)
        · exact fun hc => hk hc.symm
        · exact hall x hx
    · rintro ⟨hall, hm⟩
      refine ⟨fun x hx => hall x (Or.inr hx), ?_⟩
      show (if k = key y then some y else m k) = none
      rw [if_neg (fun hk => (hall y (Or.inl rfl)) hk.symm)]
      exact hm

lemma dict_by_key_some (key : α → Nat) (rows : List α) (k : Nat) (x : α)
    (h : dict_by_key key rows k = some x) :
    key x = k ∧ x ∈ rows := by
  unfold dict_by_key at h
  rcases dict_by_key_foldl_some key rows _ k x h with hmem | hbase
  · exact hmem
  · cases hbase

lemma dict_by_key_none (key : α → Nat) (rows : List α) (k : Nat) :
    dict_by_key key rows k = none ↔ ∀ x ∈ rows, key x ≠ k := by
  unfold dict_by_key
  rw [dict_by_key_foldl_none]
  simp

lemma mem_tasks_for_ids (store : List Task) (task_ids : List Nat) (t : Task) :
    t ∈ tasks_for_ids store task_ids ↔ t ∈ store ∧ t.id ∈ task_ids := by
  unfold tasks_for_ids
  rw [(List.perm_insertionSort _ _).mem_iff]
  simp [List.mem_filter]

end Dataloaders

namespace Dataloaders

open BatchLoader in
/-- C2: a grouping batch function returns one bucket per requested key in
positional correspondence, each bucket being exactly the fetched records
whose parent key matches that key (possibly empty, never absent); the
singular batch function returns, per key, the matching record or an explicit
absent value; and dispatching a tasks-by-project loader with keys
`[1, 2, 1, 3]` against a store holding two tasks for project 1, one for
project 2 and two for project 3 performs exactly one fetch with the
deduplicated keys `[1, 2, 3]` and yields buckets of sizes 2, 1, 2, 1. -/
theorem batch_load_fn_distribution_spec :
    (∀ (store : List Task) (project_ids : List Nat),
      TasksByProjectDataLoader_batch_load_fn store project_ids
        = project_ids.map (fun pid =>
            (tasks_for_projects store project_ids).filter
              (fun t => t.project_id = pid)))
    ∧ (∀ (store : List Task) (task_ids : List Nat),
      (TaskDataLoader_batch_load_fn store task_ids).length = task_ids.length)
    ∧ (∀ (store : List Task) (task_ids : List Nat) (i : Nat) (t : Task),
      (TaskDataLoader_batch_load_fn store task_ids).getD i none = some t →
      t.id = task_ids.getD i 0 ∧ t ∈ store)
    ∧ (∀ (store : List Task) (task_ids : List Nat) (i : Nat),
      i < task_ids.length →
      ((TaskDataLoader_batch_load_fn store task_ids).getD i none = none
        ↔ ∀ t ∈ store, t.id ≠ task_ids.getD i 0))
    ∧ (run_turn
        (TasksByProjectDataLoader_batch_load_fn
          [⟨1, 1, 10⟩, ⟨2, 1, 20⟩, ⟨3, 2, 30⟩, ⟨4, 3, 40⟩, ⟨5, 3, 50⟩])
        fresh [1, 2, 1, 3]).fetch_calls = [[1, 2, 3]]
    ∧ (run_turn
        (TasksByProjectDataLoader_batch_load_fn
          [⟨1, 1, 10⟩, ⟨2, 1, 20⟩, ⟨3, 2, 30⟩, ⟨4, 3, 40⟩, ⟨5, 3, 50⟩])
        fresh [1, 2, 1, 3]).results.map (Option.map (List.map Task.id))
      = [some [2, 1], some [3], some [2, 1], some [5, 4]] := by
  refine ⟨?_, ?_, ?_, ?_, by decide, by decide⟩
  · intro store project_ids
    unfold TasksByProjectDataLoader_batch_load_fn
    exact List.map_congr_left (fun pid _ => group_by_key_eq_filter _ _ _)
  · intro store task_ids
    unfold TaskDataLoader_batch_load_fn
    simp
  · intro store task_ids i t h
    unfold TaskDataLoader_batch_load_fn at h
    rw [List.getD_eq_getElem?_getD, List.getElem?_map] at h
    cases hk : task_ids[i]? with
    | none => rw [hk] at h; cases h
    | some k =>
      rw [hk] at h
      simp only [Option.map_some', Option.getD_some] at h
      obtain ⟨hid, hmem⟩ := dict_by_key_some _ _ _ _ h
      have hmem' := (mem_tasks_for_ids _ _ _).mp hmem
      refine ⟨?_, hmem'.1⟩
      rw [List.getD_eq_getElem?_getD, hk]
      exact hid
  · intro store task_ids i hi
    unfold TaskDataLoader_batch_load_fn
    rw [List.getD_eq_getElem?_getD, List.getElem?_map]
    have hk : task_ids[i]? = some task_ids[i] := List.getElem?_eq_getElem hi
    rw [hk]
    simp only [Option.map_some', Option.getD_some]
    rw [dict_by_key_none]
    have hkd : task_ids.getD i 0 = task_ids[i] := by
      rw [List.getD_eq_getElem?_getD, hk]
      rfl
    rw [hkd]
    constructor
    · intro hall t ht hid
      exact hall t ((mem_tasks_for_ids _ _ _).mpr
        ⟨ht, hid ▸ List.getElem_mem hi⟩) hid
    · intro hall t ht
      exact hall t ((mem_tasks_for_ids _ _ _).mp ht).1

/-- Witness for C2 at concrete inputs: a present key resolves to its record,
and on an empty store a requested key resolves to the explicit absent
value. -/
theorem batch_load_fn_distribution_spec_witness :
    ((TaskDataLoader_batch_load_fn [⟨7, 1, 0⟩] [7]).getD 0 none
        = some ⟨7, 1, 0⟩)
    ∧ ((⟨7, 1, 0⟩ : Task).id = ([7] : List Nat).getD 0 0
        ∧ (⟨7, 1, 0⟩ : Task) ∈ [(⟨7, 1, 0⟩ : Task)])
    ∧ (0 : Nat) < ([7] : List Nat).length
    ∧ ((TaskDataLoader_batch_load_fn [] [7]).getD 0 none = none
        ↔ ∀ t ∈ ([] : List Task), t.id ≠ ([7] : List Nat).getD 0 0) :=
  ⟨by decide,
    batch_load_fn_distribution_spec.2.2.1 [⟨7, 1, 0⟩] [7] 0 ⟨7, 1, 0⟩ (by decide),
    by decide,
    batch_load_fn_distribution_spec.2.2.2.1 [] [7] 0 (by decide)⟩

end Dataloaders

namespace Dataloaders

/-- C8 counterexample: with two tasks of one project inserted in creation
order (ids 1 then 2, `created_at` 10 then 20), the tasks-by-project loader
returns the bucket `[task 2, task 1]` — the reverse of insertion (creation)
order — because the `tasks` queryset carries the model's default ordering
`['-created_at']` (descending). -/
theorem tasks_by_project_not_insertion_order :
    TasksByProjectDataLoader_batch_load_fn
        [⟨1, 1, 10⟩, ⟨2, 1, 20⟩] [1]
      = [[⟨2, 1, 20⟩, ⟨1, 1, 10⟩]]
    ∧ TasksByProjectDataLoader_batch_load_fn
        [⟨1, 1, 10⟩, ⟨2, 1, 20⟩] [1]
      ≠ [[⟨1, 1, 10⟩, ⟨2, 1, 20⟩]] := by
  decide

/-- C8 (amended): each bucket a grouping loader returns is ordered by the
underlying queryset's stable order — ascending `created_at` for
comments-by-task, and descending `created_at` (newest first, the model's
default `['-created_at']` ordering) for tasks-by-project. -/
theorem grouping_loader_bucket_order :
    (∀ (store : List TaskComment) (task_ids : List Nat) (i : Nat),
      ((CommentsByTaskDataLoader_batch_load_fn store task_ids).getD i
          []).Sorted comment_asc_created)
    ∧ (∀ (store : List Task) (project_ids : List Nat) (i : Nat),
      ((TasksByProjectDataLoader_batch_load_fn store project_ids).getD i
          []).Sorted task_desc_created) := by
  constructor
  · intro store task_ids i
    unfold CommentsByTaskDataLoader_batch_load_fn
    rw [List.getD_eq_getElem?_getD, List.getElem?_map]
    cases hk : task_ids[i]? with
    | none => simp [hk]
    | some k =>
      simp only [hk, Option.map_some', Option.getD_some]
      rw [group_by_key_eq_filter]
      unfold comments_for_tasks
      exact List.Pairwise.sublist (List.filter_sublist _)
        (List.sorted_insertionSort _ _)
  · intro store project_ids i
    unfold TasksByProjectDataLoader_batch_load_fn
    rw [List.getD_eq_getElem?_getD, List.getElem?_map]
    cases hk : project_ids[i]? with
    | none => simp [hk]
    | some k =>
      simp only [hk, Option.map_some', Option.getD_some]
      rw [group_by_key_eq_filter]
      unfold tasks_for_projects
      exact List.Pairwise.sublist (List.filter_sublist _)
        (List.sorted_insertionSort _ _)

end Dataloaders

namespace BatchLoader

lemma load_cache (s : LoaderState β) (k : Nat) :
    (load s k).cache = s.cache := by
  unfold load
  split <;> rfl

lemma foldl_load_empty_cache (ks : List Nat) (s : LoaderState β)
    (h : s.cache = []) :
    ks.foldl load s = { cache := [], queue := s.queue ++ ks } := by
  induction ks generalizing s with
  | nil =>
    cases s
    simp_all
  | cons k rest ih =>
    simp only [List.foldl_cons]
    have hload : load s k = { cache := [], queue := s.queue ++ [k] } := by
      unfold load
      cases s
      simp_all [cache_lookup]
    rw [hload, ih _ rfl]
    simp

lemma dedup_foldl_mem :
    ∀ (ks acc : List Nat) (x : Nat),
      x ∈ ks.foldl (fun acc k =>
        if k ∈ acc then acc else acc ++ [k]) acc
        ↔ x ∈ acc ∨ x ∈ ks := by
  intro ks
  induction ks with
  | nil => simp
  | cons k rest ih =>
    intro acc x
    simp only [List.foldl_cons, ih, List.mem_cons]
    by_cases hk : k ∈ acc
    · simp only [if_pos hk]
      constructor
      · rintro (hx | hx)
        · exact Or.inl hx
        · exact Or.inr (Or.inr hx)
      · rintro (hx | rfl | hx)
        · exact Or.inl hx
        · exact Or.inl hk
        · exact Or.inr hx
    · simp only [if_neg hk, List.mem_append, List.mem_singleton]
      constructor
      · rintro ((hx | rfl) | hx)
        · exact Or.inl hx
        · exact Or.inr (Or.inl rfl)
        · exact Or.inr (Or.inr hx)
      · rintro (hx | rfl | hx)
        · exact Or.inl (Or.inl hx)
        · exact Or.inl (Or.inr rfl)
        · exact Or.inr hx

lemma dedup_keys_mem (ks : List Nat) (x : Nat) :
    x ∈ dedup_keys ks ↔ x ∈ ks := by
  unfold dedup_keys
  rw [dedup_foldl_mem]
  simp

lemma dedup_foldl_nodup :
    ∀ (ks acc : List Nat), acc.Nodup →
      (ks.foldl (fun acc k =>
        if k ∈ acc then acc else acc ++ [k]) acc).Nodup := by
  intro ks
  induction ks with
  | nil => exact fun acc h => h
  | cons k rest ih =>
    intro acc hacc
    simp only [List.foldl_cons]
    by_cases hk : k ∈ acc
    · rw [if_pos hk]
      exact ih acc hacc
    · rw [if_neg hk]
      refine ih _ ?_
      simp [List.nodup_append, hacc, hk]

lemma dedup_keys_nodup (ks : List Nat) : (dedup_keys ks).Nodup :=
  dedup_foldl_nodup ks [] List.nodup_nil

lemma dedup_keys_ne_nil (ks : List Nat) (h : ks ≠ []) :
    dedup_keys ks ≠ [] := by
  cases ks with
  | nil => exact absurd rfl h
  | cons k rest =>
    exact List.ne_nil_of_mem
      ((dedup_keys_mem (k :: rest) k).mpr (List.mem_cons_self _ _))

lemma cache_lookup_zip_isSome :
    ∀ (ks : List Nat) (vs : List β) (k : Nat),
      ks.length = vs.length → k ∈ ks →
      (cache_lookup k (ks.zip vs)).isSome := by
  intro ks
  induction ks with
  | nil => simp
  | cons k1 rest ih =>
    intro vs k hlen hk
    cases vs with
    | nil => simp at hlen
    | cons v vrest =>
      simp only [List.zip_cons_cons, cache_lookup]
      by_cases h1 : k1 = k
      · simp [h1]
      · rw [if_neg h1]
        rcases List.mem_cons.mp hk with rfl | hmem
        · exact absurd rfl h1
        · exact ih vrest k (by simpa using hlen) hmem

end BatchLoader

namespace BatchLoader

/-- C1 (modelled from the spec): within one scheduling turn a loader invokes
its bulk fetcher exactly once, with the deduplicated key set, however many
times each key was requested; and a later load of an already-resolved key in
the same request performs no further fetch and returns the previously
resolved result. -/
theorem batch_dedup_and_cache_hit_spec {β : Type} (fetch : List Nat → List β)
    (hlen : ∀ ks, (fetch ks).length = ks.length)
    (ks : List Nat) (hks : ks ≠ []) (k : Nat) (hk : k ∈ ks) :
    (run_turn fetch fresh ks).fetch_calls = [dedup_keys ks]
    ∧ (dedup_keys ks).Nodup
    ∧ (∀ x, x ∈ dedup_keys ks ↔ x ∈ ks)
    ∧ (run_turn fetch (run_turn fetch fresh ks).state [k]).fetch_calls = []
    ∧ (run_turn fetch (run_turn fetch fresh ks).state [k]).results
        = [(run_turn fetch fresh ks).results.getD (ks.indexOf k) none]
    ∧ ((run_turn fetch fresh ks).results.getD (ks.indexOf k) none).isSome := by
  have hdne : dedup_keys ks ≠ [] := dedup_keys_ne_nil ks hks
  have hie : (dedup_keys ks).isEmpty = false := by
    cases hd : dedup_keys ks with
    | nil => exact absurd hd hdne
    | cons _ _ => rfl
  have hfold : ks.foldl load (fresh : LoaderState β)
      = { cache := [], queue := ks } := by
    rw [foldl_load_empty_cache ks fresh rfl]
    simp [fresh]
  have ht : run_turn fetch (fresh : LoaderState β) ks
      = ⟨⟨(dedup_keys ks).zip (fetch (dedup_keys ks)), []⟩,
          [dedup_keys ks],
          ks.map (fun x =>
            cache_lookup x ((dedup_keys ks).zip (fetch (dedup_keys ks))))⟩ := by
    unfold run_turn
    rw [hfold]
    simp [hie]
  have hkz : (cache_lookup k
      ((dedup_keys ks).zip (fetch (dedup_keys ks)))).isSome :=
    cache_lookup_zip_isSome (dedup_keys ks) (fetch (dedup_keys ks)) k
      (hlen (dedup_keys ks)).symm ((dedup_keys_mem ks k).mpr hk)
  have hload2 : load
      (⟨(dedup_keys ks).zip (fetch (dedup_keys ks)), []⟩ : LoaderState β) k
      = ⟨(dedup_keys ks).zip (fetch (dedup_keys ks)), []⟩ := by
    unfold load
    simp [hkz]
  have ht2 : run_turn fetch
      (⟨(dedup_keys ks).zip (fetch (dedup_keys ks)), []⟩ : LoaderState β) [k]
      = ⟨⟨(dedup_keys ks).zip (fetch (dedup_keys ks)), []⟩,
          [],
          [cache_lookup k ((dedup_keys ks).zip (fetch (dedup_keys ks)))]⟩ := by
    unfold run_turn
    simp only [List.foldl_cons, List.foldl_nil, hload2]
    simp [dedup_keys]
  have hidx : ks.indexOf k < ks.length := List.indexOf_lt_length.mpr hk
  have hgetd : (ks.map (fun x =>
      cache_lookup x ((dedup_keys ks).zip (fetch (dedup_keys ks))))).getD
        (ks.indexOf k) none
      = cache_lookup k ((dedup_keys ks).zip (fetch (dedup_keys ks))) := by
    rw [List.getD_eq_getElem?_getD, List.getElem?_map,
      List.getElem?_eq_getElem hidx]
    simp [List.getElem_indexOf]
  refine ⟨?_, dedup_keys_nodup ks, dedup_keys_mem ks, ?_, ?_, ?_⟩
  · rw [ht]
  · rw [ht, ht2]
  · rw [ht, ht2, hgetd]
  · rw [ht]
    rw [hgetd]
    exact hkz

/-- Witness for C1 at a concrete input: keys `[1, 2, 1]` dispatched against
a fetcher answering each key with itself. -/
theorem batch_dedup_and_cache_hit_spec_witness :
    (∀ ks : List Nat, ((fun l : List Nat => l.map (fun x => x)) ks).length = ks.length)
    ∧ ([1, 2, 1] : List Nat) ≠ []
    ∧ (1 : Nat) ∈ ([1, 2, 1] : List Nat)
    ∧ ((run_turn (fun l : List Nat => l.map (fun x => x)) fresh [1, 2, 1]).fetch_calls
        = [dedup_keys [1, 2, 1]]
      ∧ (dedup_keys [1, 2, 1]).Nodup
      ∧ (∀ x, x ∈ dedup_keys [1, 2, 1] ↔ x ∈ ([1, 2, 1] : List Nat))
      ∧ (run_turn (fun l : List Nat => l.map (fun x => x))
          (run_turn (fun l : List Nat => l.map (fun x => x)) fresh [1, 2, 1]).state
          [1]).fetch_calls = []
      ∧ (run_turn (fun l : List Nat => l.map (fun x => x))
          (run_turn (fun l : List Nat => l.map (fun x => x)) fresh [1, 2, 1]).state
          [1]).results
          = [(run_turn (fun l : List Nat => l.map (fun x => x)) fresh
              [1, 2, 1]).results.getD (([1, 2, 1] : List Nat).indexOf 1) none]
      ∧ ((run_turn (fun l : List Nat => l.map (fun x => x)) fresh
          [1, 2, 1]).results.getD (([1, 2, 1] : List Nat).indexOf 1)
            none).isSome) :=
  ⟨fun ks => by simp, by decide, by decide,
    batch_dedup_and_cache_hit_spec (fun l : List Nat => l.map (fun x => x))
      (fun ks => by simp) [1, 2, 1] (by decide) 1 (by decide)⟩

end BatchLoader

namespace Signals

lemma project_key_ne_organization_key (project_id : Nat) (s s' : String) :
    project_statistics_cache_key project_id s
      ≠ organization_statistics_cache_key s' := by
  intro h
  unfold project_statistics_cache_key organization_statistics_cache_key at h
  have hd := congrArg String.data h
  simp only [String.data_append] at hd
  simp [List.cons_append] at hd

/-- C9: a task create/update/delete invalidates both its project's
statistics cache key and its organization's statistics cache key; a comment
create/update/delete invalidates only its task's project statistics cache
key, and every organization statistics cache key is left unchanged by it. -/
theorem cache_invalidation_spec {V : Type} :
    (∀ (c : Cache V) (t : Task),
      invalidate_cache_on_task_change c t
          (project_statistics_cache_key t.project.id t.project.organization.slug)
        = none)
    ∧ (∀ (c : Cache V) (t : Task),
      invalidate_cache_on_task_change c t
          (organization_statistics_cache_key t.project.organization.slug)
        = none)
    ∧ (∀ (c : Cache V) (comment : TaskComment),
      invalidate_cache_on_comment_change c comment
          (project_statistics_cache_key comment.task.project.id
            comment.task.project.organization.slug)
        = none)
    ∧ (∀ (c : Cache V) (comment : TaskComment) (slug : String),
      invalidate_cache_on_comment_change c comment
          (organization_statistics_cache_key slug)
        = c (organization_statistics_cache_key slug)) := by
  refine ⟨?_, ?_, ?_, ?_⟩
  · intro c t
    unfold invalidate_cache_on_task_change
      invalidate_organization_statistics_cache
      invalidate_project_statistics_cache cache_delete
    rw [if_neg (project_key_ne_organization_key _ _ _)]
    rw [if_pos rfl]
  · intro c t
    unfold invalidate_cache_on_task_change
      invalidate_organization_statistics_cache
      invalidate_project_statistics_cache cache_delete
    rw [if_pos rfl]
  · intro c comment
    unfold invalidate_cache_on_comment_change
      invalidate_project_statistics_cache cache_delete
    rw [if_pos rfl]
  · intro c comment slug
    unfold invalidate_cache_on_comment_change
      invalidate_project_statistics_cache cache_delete
    rw [if_neg (fun hh =>
      project_key_ne_organization_key _ _ _ hh.symm)]

end Signals
